import Mathlib

/-!
# gtk2-constants/constants.c

A shallow embedding of `constants.c`: the program prints, one per line, the
integer values of ten GTK enumeration constants.

* Standard output is the list of characters written so far.
* A `char *` argument is the list of characters found in memory from the
  pointer on; the text of the C string is what precedes the first NUL.
* An `int` is a mathematical integer; the program does no arithmetic on it.
* The GTK enumeration constants come from `<gtk/gtk.h>`, which is not part of
  the program: they are a parameter (`GtkConstants`).
* `printf` is the C library's; the two conversions the program uses are
  modelled after the C standard (`vprintf`, `decimal`).
-/

namespace Constants

/-! ## The C library: strings, `%d`, `printf` -/

/-- Standard output, as the characters written so far, oldest first. -/
abbrev Stdout := List Char

/-- The NUL character that terminates a C string. -/
def NUL : Char := '\x00'

/-- The text of the C string stored at a pointer: the characters in memory up to,
and not including, the first NUL. -/
def cstr (p : List Char) : List Char :=
  p.takeWhile (fun c => c != NUL)

/-- A C string literal as it lies in memory: its characters, then a NUL. -/
def lit (s : String) : List Char :=
  s.toList ++ [NUL]

/-- The character of one decimal digit, as in `"0123456789"[d]`. -/
def digit_char : Nat → Char
  | 0 => '0'
  | 1 => '1'
  | 2 => '2'
  | 3 => '3'
  | 4 => '4'
  | 5 => '5'
  | 6 => '6'
  | 7 => '7'
  | 8 => '8'
  | _ => '9'

/-- The digit loop of an unsigned decimal conversion: the last digit of `n` is put
in front of `acc` and the loop goes on with `n / 10` until one digit is left.
The first argument bounds the number of rounds. -/
def utoa_loop : Nat → Nat → List Char → List Char
  | 0, _, acc => acc
  | fuel + 1, n, acc =>
    if n < 10 then digit_char n :: acc
    else utoa_loop fuel (n / 10) (digit_char (n % 10) :: acc)

/-- The decimal digits of a natural number, most significant first. -/
def utoa (n : Nat) : List Char :=
  utoa_loop (n + 1) n []

/-- Modelled from the spec: the `%d` conversion of the C library's `printf`, which
is not part of the program. The value is written in the style `[-]dddd`: a minus
sign when it is negative, then the decimal digits of its magnitude. -/
def decimal (v : Int) : List Char :=
  if v < 0 then '-' :: utoa v.natAbs else utoa v.natAbs

/-- An argument passed to `printf` after the format. -/
inductive Arg where
  | str (p : List Char)
  | int (v : Int)

/-- Modelled from the spec: the C library's `printf`, which is not part of the
program, restricted to the conversions `%s` and `%d`. The result is the text the
call appends to standard output: `%s` is replaced by the text of the next argument,
a C string, `%d` by the decimal rendering of the next argument, an `int`, and every
other character of the format is copied. A conversion whose argument is missing or
of the other kind is undefined in C; the program has none, and here it is copied. -/
def vprintf : List Char → List Arg → List Char
  | [], _ => []
  | '%' :: 's' :: fmt, Arg.str p :: args => cstr p ++ vprintf fmt args
  | '%' :: 'd' :: fmt, Arg.int v :: args => decimal v ++ vprintf fmt args
  | c :: fmt, args => c :: vprintf fmt args

/-- The call `printf(fmt, args...)` on a standard output. -/
def printf (fmt : String) (args : List Arg) (out : Stdout) : Stdout :=
  out ++ vprintf fmt.toList args

/-! ## The program -/

/-- The function `print_it` of constants.c:
`printf("%s = %d\n", name, value);` -/
def print_it (name : List Char) (value : Int) (out : Stdout) : Stdout :=
  printf "%s = %d\n" [Arg.str name, Arg.int value] out

/-- The enumeration constants of `<gtk/gtk.h>` that `main` reads. -/
structure GtkConstants where
  GTK_WINDOW_TOPLEVEL : Int
  GTK_ORIENTATION_HORIZONTAL : Int
  GTK_ORIENTATION_VERTICAL : Int
  GTK_JUSTIFY_CENTER : Int
  GTK_DIALOG_MODAL : Int
  GTK_BUTTONS_NONE : Int
  GTK_MESSAGE_INFO : Int
  GTK_MESSAGE_WARNING : Int
  GTK_MESSAGE_ERROR : Int
  GTK_MESSAGE_QUESTION : Int

/-- The function `main` of constants.c: the ten calls of `print_it`, in the order
of the source, then `return 0`. The result is the standard output after the run
and the returned status. -/
def main (g : GtkConstants) (out : Stdout) : Stdout × Int :=
  let out := print_it (lit "GTK_WINDOW_TOPLEVEL") g.GTK_WINDOW_TOPLEVEL out
  let out := print_it (lit "GTK_ORIENTATION_HORIZONTAL") g.GTK_ORIENTATION_HORIZONTAL out
  let out := print_it (lit "GTK_ORIENTATION_VERTICAL") g.GTK_ORIENTATION_VERTICAL out
  let out := print_it (lit "GTK_JUSTIFY_CENTER") g.GTK_JUSTIFY_CENTER out
  let out := print_it (lit "GTK_DIALOG_MODAL") g.GTK_DIALOG_MODAL out
  let out := print_it (lit "GTK_BUTTONS_NONE") g.GTK_BUTTONS_NONE out
  let out := print_it (lit "GTK_MESSAGE_INFO") g.GTK_MESSAGE_INFO out
  let out := print_it (lit "GTK_MESSAGE_WARNING") g.GTK_MESSAGE_WARNING out
  let out := print_it (lit "GTK_MESSAGE_ERROR") g.GTK_MESSAGE_ERROR out
  let out := print_it (lit "GTK_MESSAGE_QUESTION") g.GTK_MESSAGE_QUESTION out
  (out, 0)

/-! ## Notions the specification uses -/

/-- The least value of a 32-bit two's complement `int`. -/
def INT_MIN : Int := -2147483648

/-- The greatest value of a 32-bit two's complement `int`. -/
def INT_MAX : Int := 2147483647

/-- A sample assignment of values to the constants `main` reads, in the order of
the fields: 0, 0, 1, 2, 1, 0, 0, 1, 3, 2. -/
def sample : GtkConstants :=
  GtkConstants.mk 0 0 1 2 1 0 0 1 3 2

/-- The lines of a text: the runs of characters that the line terminators end, in
order; characters after the last terminator make a last line. -/
def lines : List Char → List (List Char)
  | [] => []
  | c :: cs =>
    if c = '\n' then [] :: lines cs
    else
      match lines cs with
      | [] => [[c]]
      | l :: ls => (c :: l) :: ls

/-- The name part of a line: the text before its first `" = "`. -/
def name_part : List Char → List Char
  | [] => []
  | c :: cs =>
    if " = ".toList.isPrefixOf (c :: cs) then [] else c :: name_part cs

/-- The line the specification gives for a pair: `name ++ " = " ++ decimal value`. -/
def line_of (name : String) (value : Int) : List Char :=
  name.toList ++ " = ".toList ++ decimal value

/-- A line of the output together with its terminator. -/
def line_nl (p : String × Int) : List Char :=
  line_of p.1 p.2 ++ "\n".toList

/-- The pairs `main` reports, in the order of the calls in the source. -/
def reported (g : GtkConstants) : List (String × Int) :=
  [("GTK_WINDOW_TOPLEVEL", g.GTK_WINDOW_TOPLEVEL),
   ("GTK_ORIENTATION_HORIZONTAL", g.GTK_ORIENTATION_HORIZONTAL),
   ("GTK_ORIENTATION_VERTICAL", g.GTK_ORIENTATION_VERTICAL),
   ("GTK_JUSTIFY_CENTER", g.GTK_JUSTIFY_CENTER),
   ("GTK_DIALOG_MODAL", g.GTK_DIALOG_MODAL),
   ("GTK_BUTTONS_NONE", g.GTK_BUTTONS_NONE),
   ("GTK_MESSAGE_INFO", g.GTK_MESSAGE_INFO),
   ("GTK_MESSAGE_WARNING", g.GTK_MESSAGE_WARNING),
   ("GTK_MESSAGE_ERROR", g.GTK_MESSAGE_ERROR),
   ("GTK_MESSAGE_QUESTION", g.GTK_MESSAGE_QUESTION)]

/-- The candidate constants whose calls are commented out in `main`. -/
def skipped : List String :=
  ["GTK_WINDOW_POPUP", "GTK_JUSTIFY_LEFT", "GTK_JUSTIFY_RIGHT", "GTK_JUSTIFY_FILL"]

/-- A sequence of `print_it` calls, one per pair, in the order of the list. -/
def print_all : List (List Char × Int) → Stdout → Stdout
  | [], out => out
  | (name, value) :: rest, out => print_all rest (print_it name value out)

/-- A decimal digit character, `'0'` to `'9'`. -/
def is_digit (c : Char) : Bool :=
  "0123456789".toList.contains c

/-- The value of a decimal digit character, if it is one: its distance from `'0'`. -/
def digit_value (c : Char) : Option Nat :=
  if is_digit c = true then some (c.toNat - 48) else none

/-- Reading a run of decimal digits as a base-10 number, continuing from `acc`. -/
def read_digits (acc : Nat) : List Char → Option Nat
  | [] => some acc
  | c :: cs =>
    match digit_value c with
    | some d => read_digits (10 * acc + d) cs
    | none => none

/-- Reading a text as a base-10 integer: an optional `-`, then at least one digit
and only digits. -/
def read_decimal : List Char → Option Int
  | [] => none
  | ['-'] => none
  | '-' :: cs => (read_digits 0 cs).map (fun n => -(n : Int))
  | cs => (read_digits 0 cs).map (fun n => (n : Int))

/-! ## The digit loop -/

theorem digit_char_is_digit (d : Nat) : is_digit (digit_char d) = true := by
  unfold digit_char
  split <;> decide

theorem digit_value_digit_char (d : Nat) (h : d < 10) : digit_value (digit_char d) = some d := by
  interval_cases d <;> rfl

theorem digit_char_eq_zero (d : Nat) (h : d < 10) (h0 : digit_char d = '0') : d = 0 := by
  interval_cases d <;> first | rfl | (exact absurd h0 (by decide))

/-- The digit loop writes the base-10 digits of a positive number, most significant
first, in front of what it was given. -/
theorem utoa_loop_eq (fuel : Nat) : ∀ (n : Nat) (acc : List Char), 0 < n → n < fuel →
    utoa_loop fuel n acc = ((Nat.digits 10 n).reverse.map digit_char) ++ acc := by
  induction fuel with
  | zero => intro n acc _ h; omega
  | succ fuel ih =>
    intro n acc hpos hlt
    unfold utoa_loop
    by_cases h10 : n < 10
    · rw [if_pos h10, Nat.digits_of_lt 10 n (by omega) h10]
      rfl
    · rw [if_neg h10, ih (n / 10) _ (by omega) (by omega),
        Nat.digits_def' (by decide) hpos]
      simp
 
theorem utoa_zero : utoa 0 = ['0'] := rfl

theorem utoa_pos (n : Nat) (h : 0 < n) :
    utoa n = (Nat.digits 10 n).reverse.map digit_char := by
  unfold utoa
  rw [utoa_loop_eq (n + 1) n [] h (by omega)]
  simp

theorem utoa_is_digit (n : Nat) : ∀ c ∈ utoa n, is_digit c = true := by
  intro c hc
  rcases Nat.eq_zero_or_pos n with h | h
  · subst h
    rw [utoa_zero] at hc
    simp at hc
    subst hc
    decide
  · rw [utoa_pos n h] at hc
    simp only [List.mem_map] at hc
    obtain ⟨d, _, rfl⟩ := hc
    exact digit_char_is_digit d

theorem utoa_ne_nil (n : Nat) : utoa n ≠ [] := by
  rcases Nat.eq_zero_or_pos n with h | h
  · subst h
    simp [utoa_zero]
  · rw [utoa_pos n h]
    intro hnil
    have h1 : Nat.digits 10 n ≠ [] := Nat.digits_ne_nil_iff_ne_zero.mpr (by omega)
    rw [List.map_eq_nil_iff, List.reverse_eq_nil_iff] at hnil
    exact h1 hnil

theorem utoa_lt (n : Nat) (h : n < 10) : utoa n = [digit_char n] := by
  unfold utoa utoa_loop
  rw [if_pos h]

theorem utoa_step (n : Nat) (h : 10 ≤ n) :
    utoa n = utoa (n / 10) ++ [digit_char (n % 10)] := by
  rw [utoa_pos n (by omega), utoa_pos (n / 10) (by omega),
    Nat.digits_def' (by decide) (by omega)]
  simp

theorem read_digits_snoc (l : List Char) (d : Nat) (hd : d < 10) : ∀ acc : Nat,
    read_digits acc (l ++ [digit_char d]) = (read_digits acc l).map (fun a => 10 * a + d) := by
  induction l with
  | nil =>
    intro acc
    simp [read_digits, digit_value_digit_char d hd]
  | cons c cs ih =>
    intro acc
    simp only [List.cons_append, read_digits]
    cases digit_value c with
    | none => rfl
    | some e => exact ih _

/-- Reading the digits of a number back gives the number. -/
theorem read_digits_utoa (n : Nat) : read_digits 0 (utoa n) = some n := by
  induction n using Nat.strong_induction_on with
  | _ n ih =>
    by_cases h : n < 10
    · rw [utoa_lt n h]
      simp [read_digits, digit_value_digit_char n h]
    · rw [utoa_step n (by omega), read_digits_snoc _ _ (Nat.mod_lt _ (by decide)),
        ih (n / 10) (by omega)]
      simp
      omega

theorem utoa_injective (n m : Nat) (h : utoa n = utoa m) : n = m := by
  have h1 := read_digits_utoa n
  rw [h, read_digits_utoa m] at h1
  exact (Option.some.inj h1).symm

/-- The digits of a number start with `'0'` only when the number is 0. -/
theorem utoa_head_zero (n : Nat) : (utoa n).head? = some '0' → n = 0 := by
  induction n using Nat.strong_induction_on with
  | _ n ih =>
    intro hh
    by_cases h : n < 10
    · rw [utoa_lt n h] at hh
      exact digit_char_eq_zero n h (by simpa using hh)
    · rw [utoa_step n (by omega)] at hh
      have hne := utoa_ne_nil (n / 10)
      cases hu : utoa (n / 10) with
      | nil => exact absurd hu hne
      | cons c cs =>
        rw [hu] at hh
        have := ih (n / 10) (by omega) (by rw [hu]; simpa using hh)
        omega

/-! ## The `%d` conversion -/

theorem decimal_chars (v : Int) : ∀ c ∈ decimal v, c = '-' ∨ is_digit c = true := by
  intro c hc
  unfold decimal at hc
  split at hc
  · rcases List.mem_cons.mp hc with h | h
    · exact Or.inl h
    · exact Or.inr (utoa_is_digit _ c h)
  · exact Or.inr (utoa_is_digit _ c hc)

theorem newline_not_mem_decimal (v : Int) : '\n' ∉ decimal v := by
  intro h
  rcases decimal_chars v _ h with h | h
  · exact absurd h (by decide)
  · exact absurd h (by decide)

theorem space_not_mem_decimal (v : Int) : ' ' ∉ decimal v := by
  intro h
  rcases decimal_chars v _ h with h | h
  · exact absurd h (by decide)
  · exact absurd h (by decide)

theorem decimal_injective (v w : Int) (h : decimal v = decimal w) : v = w := by
  unfold decimal at h
  have hd : ∀ n : Nat, utoa n ≠ '-' :: utoa w.natAbs ∧ utoa n ≠ '-' :: utoa v.natAbs := by
    intro n
    constructor <;>
    · intro hn
      have := utoa_is_digit n '-' (by rw [hn]; exact List.mem_cons_self _ _)
      exact absurd this (by decide)
  split at h <;> split at h
  · have := utoa_injective _ _ (List.cons.inj h).2
    omega
  · exact absurd h.symm (hd _).2
  · exact absurd h (hd _).1
  · have := utoa_injective _ _ h
    omega

/-- Reading the rendering of a value back gives the value. -/
theorem read_decimal_decimal (v : Int) : read_decimal (decimal v) = some v := by
  unfold decimal
  have hne := utoa_ne_nil v.natAbs
  have hdig := utoa_is_digit v.natAbs
  have hread := read_digits_utoa v.natAbs
  cases hu : utoa v.natAbs with
  | nil => exact absurd hu hne
  | cons c cs =>
    rw [hu] at hdig hread
    have hc : c ≠ '-' := by
      intro hc
      have := hdig c (List.mem_cons_self _ _)
      rw [hc] at this
      exact absurd this (by decide)
    split
    · rw [read_decimal, hread]
      · show some (-(v.natAbs : Int)) = some v
        congr 1
        omega
      · intro h; exact List.noConfusion h
    · rw [read_decimal, hread]
      · show some (v.natAbs : Int) = some v
        congr 1
        omega
      · intro h; exact List.noConfusion h
      · intro h; exact absurd (List.cons.inj h).1 hc
      · intro cs h; exact absurd (List.cons.inj h).1 hc

/-! ## One call of `print_it` -/

theorem cstr_append_nul (text rest : List Char) (h : NUL ∉ text) :
    cstr (text ++ NUL :: rest) = text := by
  induction text with
  | nil => rfl
  | cons c cs ih =>
    have hc : c ≠ NUL := fun e => h (e ▸ List.mem_cons_self _ _)
    have hcs : NUL ∉ cs := fun e => h (List.mem_cons_of_mem _ e)
    have ih := ih hcs
    have hb : (c != NUL) = true := bne_iff_ne.mpr hc
    unfold cstr at ih ⊢
    simp [List.takeWhile, hb, ih]

theorem cstr_lit (s : String) (h : NUL ∉ s.toList) : cstr (lit s) = s.toList := by
  unfold lit
  exact cstr_append_nul s.toList [] h

/-- What a call of `print_it` does to the standard output, in terms of the text of
the C string it is given. -/
theorem print_it_eq (p : List Char) (v : Int) (out : Stdout) :
    print_it p v out = out ++ (cstr p ++ " = ".toList ++ decimal v ++ "\n".toList) := by
  show out ++ (cstr p ++ (" = ".toList ++ (decimal v ++ ['\n']))) = _
  simp

theorem lines_line (l rest : List Char) (h : '\n' ∉ l) :
    lines (l ++ '\n' :: rest) = l :: lines rest := by
  induction l with
  | nil => simp [lines]
  | cons c cs ih =>
    have hc : c ≠ '\n' := fun e => h (e ▸ List.mem_cons_self _ _)
    have hcs : '\n' ∉ cs := fun e => h (List.mem_cons_of_mem _ e)
    simp [lines, hc, ih hcs]

theorem name_part_cons (name rest : List Char) (h : ' ' ∉ name) :
    name_part (name ++ ' ' :: '=' :: ' ' :: rest) = name := by
  induction name with
  | nil => simp [name_part]
  | cons c cs ih =>
    have hc : ¬ ' ' = c := fun e => h (e ▸ List.mem_cons_self _ _)
    have hcs : ' ' ∉ cs := fun e => h (List.mem_cons_of_mem _ e)
    simp [name_part, hc, ih hcs]

theorem name_part_line (name rest : List Char) (h : ' ' ∉ name) :
    name_part (name ++ " = ".toList ++ rest) = name := by
  have := name_part_cons name rest h
  simpa using this

/-- Two texts with the same space-free ending after a space are equal part by part. -/
theorem split_at_last_space : ∀ (x y d e : List Char), ' ' ∉ d → ' ' ∉ e →
    x ++ ' ' :: d = y ++ ' ' :: e → x = y ∧ d = e := by
  intro x
  induction x with
  | nil =>
    intro y d e hd he h
    cases y with
    | nil => exact ⟨rfl, (List.cons.inj h).2⟩
    | cons c cs =>
      have h2 : d = cs ++ ' ' :: e := (List.cons.inj h).2
      exact absurd (h2 ▸ List.mem_append_right cs (List.mem_cons_self _ _)) hd
  | cons a x ih =>
    intro y d e hd he h
    cases y with
    | nil =>
      have h2 : x ++ ' ' :: d = e := (List.cons.inj h).2
      exact absurd (h2 ▸ List.mem_append_right x (List.mem_cons_self _ _)) he
    | cons c cs =>
      have h1 := List.cons.inj h
      have := ih cs d e hd he h1.2
      exact ⟨by rw [h1.1, this.1], this.2⟩

/-- The line format is unambiguous: name and value are determined by the line. -/
theorem line_unambiguous (n m : List Char) (v w : Int)
    (h : n ++ " = ".toList ++ decimal v ++ "\n".toList
      = m ++ " = ".toList ++ decimal w ++ "\n".toList) : n = m ∧ v = w := by
  have h1 := List.append_cancel_right h
  have h2 : (n ++ [' ', '=']) ++ ' ' :: decimal v = (m ++ [' ', '=']) ++ ' ' :: decimal w := by
    simpa using h1
  have h3 := split_at_last_space _ _ _ _ (space_not_mem_decimal v) (space_not_mem_decimal w) h2
  exact ⟨List.append_cancel_right h3.1, decimal_injective v w h3.2⟩

/-! ## The run of `main` -/

theorem print_it_lit (s : String) (v : Int) (out : Stdout) (h : NUL ∉ s.toList) :
    print_it (lit s) v out = out ++ line_nl (s, v) := by
  rw [print_it_eq, cstr_lit s h]
  rfl

/-- The standard output after `main`: what was there, then one terminated line per
reported pair, in order. -/
theorem main_output (g : GtkConstants) (out : Stdout) :
    (main g out).1 = out ++ ((reported g).map line_nl).flatten := by
  simp only [main]
  rw [print_it_lit _ _ _ (by decide), print_it_lit _ _ _ (by decide),
    print_it_lit _ _ _ (by decide), print_it_lit _ _ _ (by decide),
    print_it_lit _ _ _ (by decide), print_it_lit _ _ _ (by decide),
    print_it_lit _ _ _ (by decide), print_it_lit _ _ _ (by decide),
    print_it_lit _ _ _ (by decide), print_it_lit _ _ _ (by decide)]
  simp only [reported, List.map, List.flatten, List.append_assoc, List.append_nil]

theorem newline_not_mem_line_of (s : String) (v : Int) (h : '\n' ∉ s.toList) :
    '\n' ∉ line_of s v := by
  unfold line_of
  intro hm
  rcases List.mem_append.mp hm with hm | hm
  · rcases List.mem_append.mp hm with hm | hm
    · exact h hm
    · exact absurd hm (by decide)
  · exact newline_not_mem_decimal v hm

/-- Splitting a run of terminated lines gives the lines back. -/
theorem lines_flatten (ps : List (String × Int)) (h : ∀ p ∈ ps, '\n' ∉ p.1.toList) :
    lines ((ps.map line_nl).flatten) = ps.map (fun p => line_of p.1 p.2) := by
  induction ps with
  | nil => rfl
  | cons p ps ih =>
    have h1 := newline_not_mem_line_of p.1 p.2 (h p (List.mem_cons_self _ _))
    have h2 := ih (fun q hq => h q (List.mem_cons_of_mem _ hq))
    simp only [List.map_cons, List.flatten_cons, line_nl]
    have : line_of p.1 p.2 ++ "\n".toList ++ (List.map line_nl ps).flatten
        = line_of p.1 p.2 ++ '\n' :: (List.map line_nl ps).flatten := by simp
    rw [this, lines_line _ _ h1, h2]

theorem reported_names (g : GtkConstants) : (reported g).map Prod.fst =
    ["GTK_WINDOW_TOPLEVEL", "GTK_ORIENTATION_HORIZONTAL", "GTK_ORIENTATION_VERTICAL",
     "GTK_JUSTIFY_CENTER", "GTK_DIALOG_MODAL", "GTK_BUTTONS_NONE", "GTK_MESSAGE_INFO",
     "GTK_MESSAGE_WARNING", "GTK_MESSAGE_ERROR", "GTK_MESSAGE_QUESTION"] := rfl

theorem reported_name_mem (g : GtkConstants) (p : String × Int) (h : p ∈ reported g) :
    p.1 ∈ ["GTK_WINDOW_TOPLEVEL", "GTK_ORIENTATION_HORIZONTAL", "GTK_ORIENTATION_VERTICAL",
     "GTK_JUSTIFY_CENTER", "GTK_DIALOG_MODAL", "GTK_BUTTONS_NONE", "GTK_MESSAGE_INFO",
     "GTK_MESSAGE_WARNING", "GTK_MESSAGE_ERROR", "GTK_MESSAGE_QUESTION"] := by
  rw [← reported_names g]
  exact List.mem_map_of_mem _ h

theorem reported_name_plain (g : GtkConstants) (p : String × Int) (h : p ∈ reported g) :
    '\n' ∉ p.1.toList ∧ ' ' ∉ p.1.toList := by
  have := reported_name_mem g p h
  revert this
  generalize p.1 = s
  intro hs
  simp only [List.mem_cons, List.mem_singleton, List.not_mem_nil, or_false] at hs
  rcases hs with h | h | h | h | h | h | h | h | h | h <;> subst h <;> decide

theorem main_lines (g : GtkConstants) :
    lines (main g []).1 = (reported g).map (fun p => line_of p.1 p.2) := by
  rw [main_output, List.nil_append]
  exact lines_flatten _ (fun p hp => (reported_name_plain g p hp).1)

theorem count_newline_line_nl (p : String × Int) (h : '\n' ∉ p.1.toList) :
    (line_nl p).count '\n' = 1 := by
  unfold line_nl
  rw [List.count_append, List.count_eq_zero_of_not_mem (newline_not_mem_line_of p.1 p.2 h)]
  rfl

theorem count_newline_flatten (ps : List (String × Int)) (h : ∀ p ∈ ps, '\n' ∉ p.1.toList) :
    ((ps.map line_nl).flatten).count '\n' = ps.length := by
  induction ps with
  | nil => rfl
  | cons p ps ih =>
    simp only [List.map_cons, List.flatten_cons, List.count_append, List.length_cons]
    rw [count_newline_line_nl p (h p (List.mem_cons_self _ _)),
      ih (fun q hq => h q (List.mem_cons_of_mem _ hq))]
    omega

theorem name_part_line_of (g : GtkConstants) (p : String × Int) (h : p ∈ reported g) :
    name_part (line_of p.1 p.2) = p.1.toList := by
  unfold line_of
  exact name_part_line _ _ (reported_name_plain g p h).2

theorem main_lines_nodup (g : GtkConstants) : (lines (main g []).1).Nodup := by
  rw [main_lines]
  apply List.Nodup.of_map name_part
  rw [List.map_map]
  have : List.map (name_part ∘ fun p => line_of p.1 p.2) (reported g)
      = List.map (fun p => p.1.toList) (reported g) := by
    apply List.map_congr_left
    intro p hp
    exact name_part_line_of g p hp
  rw [this]
  simp only [reported, List.map]
  decide

theorem filter_eq_length_one {α : Type} [DecidableEq α] (l : List α) (a : α)
    (hn : l.Nodup) (h : a ∈ l) : (l.filter (fun x => x = a)).length = 1 := by
  have := List.count_eq_one_of_mem hn h
  rw [List.count, List.countP_eq_length_filter] at this
  simpa using this

theorem print_all_eq (calls : List (List Char × Int)) : ∀ out : Stdout,
    print_all calls out = out ++ (calls.map (fun c => print_it c.1 c.2 [])).flatten := by
  induction calls with
  | nil => intro out; simp [print_all]
  | cons c cs ih =>
    intro out
    obtain ⟨name, value⟩ := c
    simp only [print_all, List.map_cons, List.flatten_cons]
    rw [ih, print_it_eq name value out, print_it_eq name value []]
    simp

/-! ## The claims -/

/-- C1: for every name, a text without NUL stored NUL-terminated, for every value and
every earlier content of the standard output, after `print_it(name, value)` the
standard output is what it was before followed by exactly
`name ++ " = " ++ decimal(value) ++ "\n"`. -/
theorem print_it_appends_line (text rest : List Char) (value : Int) (out : Stdout)
    (h : NUL ∉ text) :
    print_it (text ++ NUL :: rest) value out
      = out ++ (text ++ " = ".toList ++ decimal value ++ "\n".toList) := by
  rw [print_it_eq, cstr_append_nul text rest h]

/-- C1 at the name `GTK_DIALOG_MODAL`, the value -5 and a standard output that
already holds a line. -/
theorem print_it_appends_line_witness :
    NUL ∉ "GTK_DIALOG_MODAL".toList ∧
    print_it ("GTK_DIALOG_MODAL".toList ++ NUL :: "junk".toList) (-5) "x = 0\n".toList
      = "x = 0\n".toList
        ++ ("GTK_DIALOG_MODAL".toList ++ " = ".toList ++ decimal (-5) ++ "\n".toList) :=
  ⟨by decide, print_it_appends_line _ _ _ _ (by decide)⟩

/-- C2, refuted as stated: the name `"a\nb"` is accepted like any other, and the call
`print_it("a\nb", 1)` appends `"a\nb = 1\n"`, which holds two line terminators and
makes two lines. -/
theorem print_it_newline_in_name :
    print_it (lit "a\nb") 1 [] = "a\nb = 1\n".toList ∧
    (print_it (lit "a\nb") 1 []).count '\n' = 2 ∧
    ¬ (print_it (lit "a\nb") 1 []).count '\n' = 1 ∧
    lines (print_it (lit "a\nb") 1 []) = ["a".toList, "b = 1".toList] := by
  decide

/-- C2, amended: for every name and value the text a call of `print_it` appends ends
with a line terminator and holds one line terminator more than the name; when the
name holds no line terminator, the appended text holds exactly one, its last
character, and is exactly one line. -/
theorem print_it_one_line (text rest : List Char) (value : Int) (out : Stdout)
    (h : NUL ∉ text) :
    ∃ t, print_it (text ++ NUL :: rest) value out = out ++ t ∧
      t.getLast? = some '\n' ∧
      t.count '\n' = text.count '\n' + 1 ∧
      ('\n' ∉ text →
        t.count '\n' = 1 ∧ lines t = [text ++ " = ".toList ++ decimal value]) := by
  refine ⟨text ++ " = ".toList ++ decimal value ++ "\n".toList, ?_, ?_, ?_, ?_⟩
  · rw [print_it_eq, cstr_append_nul text rest h]
  · exact List.getLast?_concat _
  · have hd : (decimal value).count '\n' = 0 :=
      List.count_eq_zero_of_not_mem (newline_not_mem_decimal value)
    have hs : (" = ".toList).count '\n' = 0 := by decide
    have hn : ("\n".toList).count '\n' = 1 := by decide
    rw [List.count_append, List.count_append, List.count_append, hd, hs, hn]
  · intro hn
    have hd : (decimal value).count '\n' = 0 :=
      List.count_eq_zero_of_not_mem (newline_not_mem_decimal value)
    have hs : (" = ".toList).count '\n' = 0 := by decide
    have h1 : ("\n".toList).count '\n' = 1 := by decide
    constructor
    · rw [List.count_append, List.count_append, List.count_append, hd, hs, h1,
        List.count_eq_zero_of_not_mem hn]
    · have hl : '\n' ∉ text ++ " = ".toList ++ decimal value := by
        intro hm
        rcases List.mem_append.mp hm with hm | hm
        · rcases List.mem_append.mp hm with hm | hm
          · exact hn hm
          · exact absurd hm (by decide)
        · exact newline_not_mem_decimal value hm
      have := lines_line _ [] hl
      simpa [lines] using this

/-- C2, amended, at the name `A` and the value 1. -/
theorem print_it_one_line_witness :
    NUL ∉ "A".toList ∧
    ∃ t, print_it ("A".toList ++ NUL :: []) 1 [] = [] ++ t ∧
      t.getLast? = some '\n' ∧
      t.count '\n' = ("A".toList).count '\n' + 1 ∧
      ('\n' ∉ "A".toList →
        t.count '\n' = 1 ∧ lines t = ["A".toList ++ " = ".toList ++ decimal 1]) :=
  ⟨by decide, print_it_one_line _ _ _ _ (by decide)⟩

/-- C3: for every assignment of values to the constants, the lines `main` writes to
an empty standard output are those of the ten constants in the order of the source,
the i-th line being `name_i ++ " = " ++ decimal(value_i)`. -/
theorem main_lines_in_order (g : GtkConstants) :
    lines (main g []).1 =
      [line_of "GTK_WINDOW_TOPLEVEL" g.GTK_WINDOW_TOPLEVEL,
       line_of "GTK_ORIENTATION_HORIZONTAL" g.GTK_ORIENTATION_HORIZONTAL,
       line_of "GTK_ORIENTATION_VERTICAL" g.GTK_ORIENTATION_VERTICAL,
       line_of "GTK_JUSTIFY_CENTER" g.GTK_JUSTIFY_CENTER,
       line_of "GTK_DIALOG_MODAL" g.GTK_DIALOG_MODAL,
       line_of "GTK_BUTTONS_NONE" g.GTK_BUTTONS_NONE,
       line_of "GTK_MESSAGE_INFO" g.GTK_MESSAGE_INFO,
       line_of "GTK_MESSAGE_WARNING" g.GTK_MESSAGE_WARNING,
       line_of "GTK_MESSAGE_ERROR" g.GTK_MESSAGE_ERROR,
       line_of "GTK_MESSAGE_QUESTION" g.GTK_MESSAGE_QUESTION] :=
  main_lines g

/-- C4: for every assignment of values to the constants, the output of `main` on an
empty standard output holds exactly 10 line terminators and splits into exactly 10
lines, the number of pairs `main` reports. -/
theorem main_line_count (g : GtkConstants) :
    (main g []).1.count '\n' = 10 ∧
    (lines (main g []).1).length = 10 ∧
    (reported g).length = 10 := by
  refine ⟨?_, ?_, rfl⟩
  · rw [main_output, List.nil_append,
      count_newline_flatten _ (fun p hp => (reported_name_plain g p hp).1)]
    rfl
  · rw [main_lines, List.length_map]
    rfl

/-- C5: for every assignment of values to the constants and each pair `main`
reports, the line `name ++ " = " ++ decimal(value)` occurs exactly once among the
lines of the output of `main`. -/
theorem main_each_line_once (g : GtkConstants) (p : String × Int) (h : p ∈ reported g) :
    ((lines (main g []).1).filter (fun l => l = line_of p.1 p.2)).length = 1 := by
  apply filter_eq_length_one _ _ (main_lines_nodup g)
  rw [main_lines]
  exact List.mem_map_of_mem _ h

/-- C5 at the sample assignment and the pair of `GTK_JUSTIFY_CENTER`. -/
theorem main_each_line_once_witness :
    (("GTK_JUSTIFY_CENTER", 2) : String × Int) ∈ reported sample ∧
    ((lines (main sample []).1).filter
      (fun l => l = line_of "GTK_JUSTIFY_CENTER" 2)).length = 1 :=
  ⟨by decide, main_each_line_once sample ("GTK_JUSTIFY_CENTER", 2) (by decide)⟩

/-- C6: the decimal rendering `print_it` writes is exact. `decimal(0) = "0"`,
`decimal(-5) = "-5"`, and `INT_MIN` and `INT_MAX` are rendered in full; for every
value the rendering is a `-`, present exactly when the value is negative, followed by
at least one character, all of them digits `0` to `9`, the first of which is `0`
only when the value is 0; and reading the rendering back gives the value. -/
theorem decimal_exact (v : Int) :
    decimal 0 = "0".toList ∧
    decimal (-5) = "-5".toList ∧
    decimal INT_MIN = "-2147483648".toList ∧
    decimal INT_MAX = "2147483647".toList ∧
    (∃ ds : List Char,
      decimal v = (if v < 0 then ['-'] else []) ++ ds ∧
      ds ≠ [] ∧
      (∀ c ∈ ds, is_digit c = true) ∧
      (ds.head? = some '0' → v = 0)) ∧
    read_decimal (decimal v) = some v := by
  refine ⟨by decide, by decide, by decide, by decide, ?_, read_decimal_decimal v⟩
  refine ⟨utoa v.natAbs, ?_, utoa_ne_nil _, utoa_is_digit _, ?_⟩
  · unfold decimal
    split <;> rfl
  · intro h
    have := utoa_head_zero _ h
    omega

/-- C7: `print_it("A", 1)` then `print_it("B", 2)` on an empty standard output give
exactly `"A = 1\nB = 2\n"`, and the output of any sequence of calls is what was there
before followed by the outputs of the single calls, in call order. -/
theorem print_it_sequence :
    print_it (lit "B") 2 (print_it (lit "A") 1 []) = "A = 1\nB = 2\n".toList ∧
    ∀ (calls : List (List Char × Int)) (out : Stdout),
      print_all calls out = out ++ (calls.map (fun c => print_it c.1 c.2 [])).flatten :=
  ⟨by decide, fun calls out => print_all_eq calls out⟩

/-- C8: for every assignment of values to the constants and every earlier content of
the standard output, `main` returns 0, and its effect is that of its ten `print_it`
calls, each made once, in the order of the source. -/
theorem main_returns_zero (g : GtkConstants) (out : Stdout) :
    (main g out).2 = 0 ∧
    (main g out).1 = print_all ((reported g).map (fun p => (lit p.1, p.2))) out ∧
    (reported g).length = 10 ∧
    ((reported g).map Prod.fst).Nodup := by
  refine ⟨rfl, rfl, rfl, ?_⟩
  rw [reported_names]
  decide

/-- C9: for every assignment of values to the constants, no line of the output of
`main` has `GTK_WINDOW_POPUP`, `GTK_JUSTIFY_LEFT`, `GTK_JUSTIFY_RIGHT` or
`GTK_JUSTIFY_FILL` as its name part; a name part that starts with `GTK_JUSTIFY_` is
`GTK_JUSTIFY_CENTER`, and one that starts with `GTK_WINDOW_` is
`GTK_WINDOW_TOPLEVEL`. -/
theorem main_skips (g : GtkConstants) (l : List Char) (h : l ∈ lines (main g []).1) :
    (∀ s ∈ skipped, name_part l ≠ s.toList) ∧
    ("GTK_JUSTIFY_".toList.isPrefixOf (name_part l) = true →
      name_part l = "GTK_JUSTIFY_CENTER".toList) ∧
    ("GTK_WINDOW_".toList.isPrefixOf (name_part l) = true →
      name_part l = "GTK_WINDOW_TOPLEVEL".toList) := by
  rw [main_lines] at h
  obtain ⟨p, hp, rfl⟩ := List.mem_map.mp h
  rw [name_part_line_of g p hp]
  have hs := reported_name_mem g p hp
  revert hs
  generalize p.1 = s
  intro hs
  simp only [List.mem_cons, List.mem_singleton, List.not_mem_nil, or_false] at hs
  rcases hs with h | h | h | h | h | h | h | h | h | h <;> subst h <;> decide

/-- C9 at the sample assignment and the line of `GTK_JUSTIFY_CENTER`. -/
theorem main_skips_witness :
    "GTK_JUSTIFY_CENTER = 2".toList ∈ lines (main sample []).1 ∧
    (∀ s ∈ skipped, name_part "GTK_JUSTIFY_CENTER = 2".toList ≠ s.toList) ∧
    ("GTK_JUSTIFY_".toList.isPrefixOf (name_part "GTK_JUSTIFY_CENTER = 2".toList) = true →
      name_part "GTK_JUSTIFY_CENTER = 2".toList = "GTK_JUSTIFY_CENTER".toList) ∧
    ("GTK_WINDOW_".toList.isPrefixOf (name_part "GTK_JUSTIFY_CENTER = 2".toList) = true →
      name_part "GTK_JUSTIFY_CENTER = 2".toList = "GTK_WINDOW_TOPLEVEL".toList) :=
  have hm : "GTK_JUSTIFY_CENTER = 2".toList ∈ lines (main sample []).1 := by
    rw [main_lines]
    decide
  ⟨hm, main_skips sample _ hm⟩

/-- C10: the line format of `print_it` is unambiguous. Two calls that append the
same text were given the same name text and the same value, whatever the names
hold, `" = "` included; and a decimal rendering holds neither a space nor `=`. -/
theorem print_it_unambiguous (p q : List Char) (v w : Int)
    (h : print_it p v [] = print_it q w []) :
    cstr p = cstr q ∧ v = w ∧ ' ' ∉ decimal v ∧ '=' ∉ decimal v := by
  rw [print_it_eq, print_it_eq, List.nil_append, List.nil_append] at h
  have := line_unambiguous _ _ _ _ h
  refine ⟨this.1, this.2, space_not_mem_decimal v, ?_⟩
  intro hm
  rcases decimal_chars v _ hm with h | h
  · exact absurd h (by decide)
  · exact absurd h (by decide)

/-- C10 at two calls with the name `A = B` and the value 7, the name being stored
with different bytes after its NUL. -/
theorem print_it_unambiguous_witness :
    print_it (lit "A = B") 7 [] = print_it ("A = B".toList ++ NUL :: "x".toList) 7 [] ∧
    cstr (lit "A = B") = cstr ("A = B".toList ++ NUL :: "x".toList) ∧ (7 : Int) = 7 ∧
    ' ' ∉ decimal 7 ∧ '=' ∉ decimal 7 :=
  ⟨by decide, print_it_unambiguous _ _ _ _ (by decide)⟩

end Constants
